import Mathlib

/-!
Verification of the gauge-monitor repository (src/gaugemonitor.py, src/plot.py).

Pressures and timestamps are IEEE doubles in the source.  Finite values are
modelled as rationals; the not-a-number sentinel (np.nan) is modelled by
`none` in `Option ℚ` (the model has no infinities; the source never produces
them either, so `np.isfinite old` corresponds exactly to `old = some _`).
-/

namespace GaugeMonitor

/-- A float that may be NaN: `none` models np.nan, `some q` a finite value. -/
abbrev QN := Option ℚ

/-- One row of the per-gauge cache array: (timestamp, pressure), either of
which may be NaN. -/
abbrev Sample := QN × QN

/-- `TIC.store_data` (gaugemonitor.py lines 53-58): `np.roll(cache, 1, axis=0)`
moves every row one slot down and wraps the last row to index 0, which is then
overwritten with the new sample.  The net effect on the row list is
`(t, pressure) :: cache.dropLast`. -/
def store_data (cache : List Sample) (t pressure : QN) : List Sample :=
  (t, pressure) :: cache.dropLast

/-- The initial per-gauge cache, `np.full((memory, 2), np.nan)`
(gaugemonitor.py line 41). -/
def initBuffer (memory : ℕ) : List Sample :=
  List.replicate memory (none, none)

/-- The cache of one gauge after inserting `samples` in order, starting from
the all-NaN initial array. -/
def bufferAfter (memory : ℕ) (samples : List Sample) : List Sample :=
  samples.foldl (fun cache s => store_data cache s.1 s.2) (initBuffer memory)

/-- The mutable state of the `TIC` object: `self.data`, a dict mapping each
gauge number to its cache array (gaugemonitor.py lines 39-41).  Modelled as a
total map; only gauge numbers present in `gauges` are ever used. -/
structure TICState where
  data : ℕ → List Sample

/-- `TIC.__init__`: every gauge starts with an all-NaN cache of `memory` rows. -/
def initTIC (memory : ℕ) : TICState :=
  ⟨fun _ => initBuffer memory⟩

/-- `self.data[gauge_no] = cache` after `store_data` on gauge `g`: only the
entry for `g` is rebound. -/
def storeTIC (s : TICState) (g : ℕ) (t pressure : QN) : TICState :=
  ⟨fun h => if h = g then store_data (s.data g) t pressure else s.data h⟩

/-- `self.data[gauge_no][0,1]` (gaugemonitor.py line 69): the pressure of the
newest cached sample.  The cache always has `memory = 200 > 0` rows in the
program; the `[]` case is unreachable and mapped to NaN. -/
def firstPressure (cache : List Sample) : QN :=
  match cache with
  | [] => none
  | e :: _ => e.2

/-- The smoothing step of `TIC.read_gauge` in emulate mode (gaugemonitor.py
lines 68-71): if the most recent stored pressure `old` is finite the new
reading is blended as `(pressure + 20*old)/21`, otherwise the raw reading is
returned unchanged. -/
def smooth (old : QN) (raw : ℚ) : ℚ :=
  match old with
  | some o => (raw + 20 * o) / 21
  | none => raw

/-- Modelled from the spec: the smoothing weight is configurable across the
monitor variants (new:old = 1:20 in src/gaugemonitor.py, 1:2^5 in a second
variant that is not under src/).  General blend with weight ratio
new:old = 1:w. -/
def smoothW (w old raw : ℚ) : ℚ :=
  (raw + w * old) / (w + 1)

/-- `TIC.read_gauge` in emulate mode (gaugemonitor.py lines 61-89), with the
random draw `r` (from `random()`) and the clock value `t` passed in
explicitly: the raw reading is `1050*r`, it is smoothed against the newest
cached pressure, stored via `store_data`, and `(t, pressure)` is returned. -/
def read_gauge_emulate (s : TICState) (g : ℕ) (t r : ℚ) : TICState × ℚ × ℚ :=
  let pressure := smooth (firstPressure (s.data g)) (1050 * r)
  (storeTIC s g (some t) (some pressure), t, pressure)

/-- The fixed y-axis of every pressure panel, `ax.set_ylim([0,1050])`
(gaugemonitor.py line 111). -/
def axis_ylim : ℚ × ℚ := (0, 1050)

/-- A possibly-NaN pressure is in plot range when, if finite, it lies in the
half-open interval `[0, 1050)`. -/
def PressureInRange (p : QN) : Prop :=
  ∀ q, p = some q → axis_ylim.1 ≤ q ∧ q < axis_ylim.2

/-- Every pressure stored in any gauge's cache is in plot range. -/
def BufferInRange (s : TICState) : Prop :=
  ∀ g, ∀ e ∈ s.data g, PressureInRange e.2

/-- Python's `l[-n:]`: the last `n` elements (the whole list when it is
shorter than `n`). -/
def lastN (n : ℕ) (l : List α) : List α :=
  l.drop (l.length - n)

/-- Sum of the x (timestamp) coordinates of a point list. -/
def sumX (pts : List (ℚ × ℚ)) : ℚ := (pts.map Prod.fst).sum

/-- Sum of the y (pressure) coordinates. -/
def sumY (pts : List (ℚ × ℚ)) : ℚ := (pts.map Prod.snd).sum

/-- Sum of the squared x coordinates. -/
def sumXX (pts : List (ℚ × ℚ)) : ℚ := (pts.map fun p => p.1 * p.1).sum

/-- Sum of the products x*y. -/
def sumXY (pts : List (ℚ × ℚ)) : ℚ := (pts.map fun p => p.1 * p.2).sum

/-- Numerator of the unique least-squares slope: n·Σxy − Σx·Σy. -/
def fitNum (pts : List (ℚ × ℚ)) : ℚ :=
  pts.length * sumXY pts - sumX pts * sumY pts

/-- Denominator of the unique least-squares slope: n·Σx² − (Σx)². -/
def fitDen (pts : List (ℚ × ℚ)) : ℚ :=
  pts.length * sumXX pts - sumX pts * sumX pts

/-- Whether the points carry two distinct x values (full column rank of the
degree-1 Vandermonde matrix). -/
def hasDistinctX (pts : List (ℚ × ℚ)) : Bool :=
  pts.any fun p => pts.any fun q => decide (p.1 ≠ q.1)

/-- Model of `np.polyfit(x, y, 1)[0]` (gaugemonitor.py line 136), the slope of
the fitted line, with `none` meaning that no numeric value is produced:

* empty input: `np.polyfit` raises `TypeError` (expected non-empty vector);
* two distinct x values: the Vandermonde matrix has full column rank and
  `lstsq` returns the unique least-squares solution, whose slope is
  `fitNum / fitDen`;
* all x equal to some `a ≠ 0`: the rank is deficient; `np.polyfit` warns
  (RankWarning) and returns the minimum-norm solution of the column-scaled
  system, whose slope works out to `(Σy) / (2·n·a)`;
* all x equal to 0: the column scaling divides by the zero column norm and no
  (finite) numeric slope results. -/
def polyfit1Slope (pts : List (ℚ × ℚ)) : Option ℚ :=
  match pts with
  | [] => none
  | p :: _ =>
    if hasDistinctX pts then some (fitNum pts / fitDen pts)
    else if p.1 = 0 then none
    else some (sumY pts / (2 * pts.length * p.1))

/-- The data of one plotted line, `self.series[row].get_data()`
(gaugemonitor.py line 126): every (shifted) timestamp and every pressure
handed to `update_data` so far, in order. -/
structure Series where
  xdata : List ℚ
  ydata : List ℚ

/-- The point window `(xdata[-10:], ydata[-10:])` that `update_data` fits
after appending the new point (gaugemonitor.py line 136). -/
def trendWindow (s : Series) (tt pressure : ℚ) : List (ℚ × ℚ) :=
  (lastN 10 (s.xdata ++ [tt])).zip (lastN 10 (s.ydata ++ [pressure]))

/-- `GaugeFigure.update_data` (gaugemonitor.py lines 121-141), reduced to its
data flow: append the new point `(tt, pressure)` to the line data, fit a
degree-1 polynomial to the last 10 points, and report the fitted gradient
(`coef[0]`).  Pressures reaching this model are finite rationals; a NaN
pressure would feed NaN into `np.polyfit`, whose outcome is decided by the
LAPACK backend and is not modelled here. -/
def update_data (s : Series) (tt pressure : ℚ) : Series × Option ℚ :=
  (⟨s.xdata ++ [tt], s.ydata ++ [pressure]⟩, polyfit1Slope (trendWindow s tt pressure))

/-- One iteration of the main loop of `run` (gaugemonitor.py lines 164-168)
for a single gauge `g`, driven by an explicit reading `(t, pressure)`: the
sample is stored in the gauge's cache and handed to `update_data` with the
time shifted by the figure's `t0`. -/
def insertAndUpdate (st : TICState × Series × Option ℚ) (g : ℕ) (t0 t pressure : ℚ) :
    TICState × Series × Option ℚ :=
  let tic := storeTIC st.1 g (some t) (some pressure)
  let su := update_data st.2.1 (t - t0) pressure
  (tic, su.1, su.2)

/-- Feed a list of readings `(t, pressure)` for gauge `g` through the cache
and the figure, starting from the all-NaN cache of capacity `memory` and an
empty plot line; returns the final state and the gradient of the last fit. -/
def runMonitor (g memory : ℕ) (t0 : ℚ) (readings : List (ℚ × ℚ)) :
    TICState × Series × Option ℚ :=
  readings.foldl (fun st rd => insertAndUpdate st g t0 rd.1 rd.2)
    (initTIC memory, ⟨[], []⟩, none)

/-- Modelled from the spec: the squared-error objective of a degree-1
least-squares fit, Σ (y − (s·x + c))², used to state that the code's fitted
gradient is the least-squares slope. -/
def sqError (w : List (ℚ × ℚ)) (s c : ℚ) : ℚ :=
  (w.map fun p => (p.2 - (s * p.1 + c)) ^ 2).sum

/-- Modelled from the spec: `s` is a least-squares slope for the window `w`
when some intercept `c` makes `(s, c)` minimise the squared error over all
lines. -/
def IsLeastSquaresSlope (w : List (ℚ × ℚ)) (s : ℚ) : Prop :=
  ∃ c, ∀ s2 c2, sqError w s c ≤ sqError w s2 c2

/-- Observable outcome of the offline plotting utility's entry point
(plot.py lines 22-27). -/
inductive PlotMain where
  | exitNoFilename : PlotMain
  | plotted : List String → PlotMain
deriving DecidableEq

/-- `plot_files` (plot.py lines 6-20) reads every supplied filename with
`pd.read_csv`, in order; modelled by the list of files it opens. -/
def plot_files (filenames : List String) : List String := filenames

/-- The `__main__` block of plot.py: with no filename arguments
(`len(sys.argv) <= 1`) it prints a message and exits before opening any file
or creating any figure; otherwise every argument after the program name is
passed to `plot_files` as a filename. -/
def plotMain (argv : List String) : PlotMain :=
  if argv.length ≤ 1 then PlotMain.exitNoFilename
  else PlotMain.plotted (plot_files (argv.drop 1))

/-! Buffer lemmas. -/

lemma length_initBuffer (memory : ℕ) : (initBuffer memory).length = memory := by
  simp [initBuffer]

lemma bufferAfter_append (memory : ℕ) (l : List Sample) (s : Sample) :
    bufferAfter memory (l ++ [s]) = (s.1, s.2) :: (bufferAfter memory l).dropLast := by
  simp [bufferAfter, List.foldl_append, store_data]

/-- Closed form of the cache: the most recent `memory` samples newest-first,
padded with the untouched all-NaN tail. -/
lemma bufferAfter_closed (memory : ℕ) (hm : 0 < memory) (samples : List Sample) :
    bufferAfter memory samples = (samples.reverse ++ initBuffer memory).take memory := by
  induction samples using List.reverseRecOn with
  | nil =>
      simp [bufferAfter, initBuffer]
  | append_singleton l s ih =>
      obtain ⟨m, rfl⟩ : ∃ m, memory = m + 1 := ⟨memory - 1, by omega⟩
      rw [bufferAfter_append, ih]
      have hlen : m + 1 ≤ (l.reverse ++ initBuffer (m + 1)).length := by
        simp [length_initBuffer]
      rw [List.dropLast_eq_take, List.length_take, List.take_take]
      rw [List.reverse_append, List.reverse_singleton]
      simp only [List.singleton_append, List.take_succ_cons]
      congr 1
      have hmin : min (m + 1) (l.reverse ++ initBuffer (m + 1)).length = m + 1 :=
        Nat.min_eq_left hlen
      rw [hmin]
      congr 1
      omega

/-! Sum and least-squares lemmas. -/

lemma sum_map_get (l : List α) (f : α → ℚ) :
    (l.map f).sum = ∑ i : Fin l.length, f (l.get i) := by
  induction l with
  | nil => simp
  | cons a t ih =>
      rw [List.map_cons, List.sum_cons, ih]
      simp only [List.length_cons]
      rw [Fin.sum_univ_succ]
      rfl

lemma hasDistinctX_iff (pts : List (ℚ × ℚ)) :
    hasDistinctX pts = true ↔ ∃ p ∈ pts, ∃ q ∈ pts, p.1 ≠ q.1 := by
  simp [hasDistinctX, List.any_eq_true]

lemma polyfit1Slope_eq_of_distinct (pts : List (ℚ × ℚ)) (h : hasDistinctX pts = true) :
    polyfit1Slope pts = some (fitNum pts / fitDen pts) := by
  cases pts with
  | nil => exact absurd h (by decide)
  | cons p0 rest =>
      simp only [polyfit1Slope]
      rw [if_pos h]

/-- With two distinct x values among the points, the least-squares denominator
n·Σx² − (Σx)² is strictly positive. -/
lemma fitDen_pos (pts : List (ℚ × ℚ)) (p q : ℚ × ℚ) (hp : p ∈ pts) (hq : q ∈ pts)
    (hne : p.1 ≠ q.1) : 0 < fitDen pts := by
  classical
  have hX : sumX pts = ∑ i : Fin pts.length, (pts.get i).1 := by
    rw [sumX, sum_map_get]
  have hXX : sumXX pts = ∑ i : Fin pts.length, (pts.get i).1 * (pts.get i).1 := by
    rw [sumXX, sum_map_get]
  obtain ⟨i0, hi0⟩ := List.mem_iff_get.mp hp
  obtain ⟨j0, hj0⟩ := List.mem_iff_get.mp hq
  have hn : 0 < pts.length := i0.pos
  have hnQ : (0:ℚ) < pts.length := by exact_mod_cast hn
  set S : ℚ := ∑ i : Fin pts.length, (pts.get i).1 with hS
  set Q : ℚ := ∑ i : Fin pts.length, (pts.get i).1 * (pts.get i).1 with hQ
  have hP : ∑ i : Fin pts.length, ((pts.length : ℚ) * (pts.get i).1 - S)^2
      = (pts.length : ℚ) * ((pts.length : ℚ) * Q - S * S) := by
    have h1 : ∀ i : Fin pts.length,
        ((pts.length : ℚ) * (pts.get i).1 - S)^2
          = (pts.length : ℚ)^2 * ((pts.get i).1 * (pts.get i).1)
            - 2 * (pts.length : ℚ) * S * (pts.get i).1 + S^2 := fun i => by ring
    rw [Finset.sum_congr rfl fun i _ => h1 i, Finset.sum_add_distrib,
      Finset.sum_sub_distrib, ← Finset.mul_sum, ← Finset.mul_sum, Finset.sum_const,
      Finset.card_univ, Fintype.card_fin, nsmul_eq_mul, ← hS, ← hQ]
    ring
  have hterm : ((pts.length : ℚ) * (pts.get i0).1 - S ≠ 0)
      ∨ ((pts.length : ℚ) * (pts.get j0).1 - S ≠ 0) := by
    by_contra hcon
    push_neg at hcon
    apply hne
    rw [← hi0, ← hj0]
    have hx : (pts.length : ℚ) * (pts.get i0).1 = (pts.length : ℚ) * (pts.get j0).1 := by
      have h1 := sub_eq_zero.mp hcon.1
      have h2 := sub_eq_zero.mp hcon.2
      rw [h1, h2]
    exact mul_left_cancel₀ (ne_of_gt hnQ) hx
  have hpos : 0 < ∑ i : Fin pts.length, ((pts.length : ℚ) * (pts.get i).1 - S)^2 := by
    rcases hterm with ht | ht
    · exact Finset.sum_pos' (fun i _ => sq_nonneg _)
        ⟨i0, Finset.mem_univ _, lt_of_le_of_ne (sq_nonneg _) (Ne.symm (pow_ne_zero 2 ht))⟩
    · exact Finset.sum_pos' (fun i _ => sq_nonneg _)
        ⟨j0, Finset.mem_univ _, lt_of_le_of_ne (sq_nonneg _) (Ne.symm (pow_ne_zero 2 ht))⟩
  rw [hP] at hpos
  have hD : fitDen pts = (pts.length : ℚ) * Q - S * S := by
    rw [fitDen, hX, hXX]
  rw [hD]
  nlinarith [hpos, hnQ]

/-- On perfectly linear data with two distinct x values, the fitted slope is
exactly the line's slope. -/
lemma polyfit1Slope_linear (pts : List (ℚ × ℚ)) (a b : ℚ)
    (hlin : ∀ p ∈ pts, p.2 = a + b * p.1)
    (p q : ℚ × ℚ) (hp : p ∈ pts) (hq : q ∈ pts) (hne : p.1 ≠ q.1) :
    polyfit1Slope pts = some b := by
  have hD := fitDen_pos pts p q hp hq hne
  have hdx : hasDistinctX pts = true := (hasDistinctX_iff pts).mpr ⟨p, hp, q, hq, hne⟩
  have hget : ∀ i : Fin pts.length, (pts.get i).2 = a + b * (pts.get i).1 :=
    fun i => hlin _ (pts.get_mem i i.isLt)
  have hY : sumY pts = (pts.length : ℚ) * a + b * sumX pts := by
    rw [sumY, sumX, sum_map_get, sum_map_get]
    rw [Finset.sum_congr rfl fun i _ => hget i, Finset.sum_add_distrib, Finset.sum_const,
      Finset.card_univ, Fintype.card_fin, nsmul_eq_mul, ← Finset.mul_sum]
  have hXY : sumXY pts = a * sumX pts + b * sumXX pts := by
    rw [sumXY, sumX, sumXX, sum_map_get, sum_map_get, sum_map_get]
    have h1 : ∀ i : Fin pts.length,
        (pts.get i).1 * (pts.get i).2
          = a * (pts.get i).1 + b * ((pts.get i).1 * (pts.get i).1) := by
      intro i
      rw [hget i]
      ring
    rw [Finset.sum_congr rfl fun i _ => h1 i, Finset.sum_add_distrib, ← Finset.mul_sum,
      ← Finset.mul_sum]
  have hnum : fitNum pts = b * fitDen pts := by
    rw [fitNum, fitDen, hXY, hY]
    ring
  rw [polyfit1Slope_eq_of_distinct pts hdx, hnum, mul_div_assoc,
    div_self (ne_of_gt hD), mul_one]

/-- The fitted slope is a least-squares slope: together with the fitted
intercept it minimises the squared error over all lines. -/
lemma polyfit1Slope_least_squares (w : List (ℚ × ℚ)) (p q : ℚ × ℚ)
    (hp : p ∈ w) (hq : q ∈ w) (hne : p.1 ≠ q.1) :
    IsLeastSquaresSlope w (fitNum w / fitDen w) := by
  classical
  have hD := fitDen_pos w p q hp hq hne
  obtain ⟨i0, hi0⟩ := List.mem_iff_get.mp hp
  have hn : 0 < w.length := i0.pos
  have hN : (0:ℚ) < w.length := by exact_mod_cast hn
  set sStar : ℚ := fitNum w / fitDen w with hsStar
  set cStar : ℚ := (sumY w - sStar * sumX w) / w.length with hcStar
  have hE : ∀ s c, sqError w s c
      = ∑ i : Fin w.length, ((w.get i).2 - (s * (w.get i).1 + c))^2 := by
    intro s c
    rw [sqError, sum_map_get]
  have hX : sumX w = ∑ i : Fin w.length, (w.get i).1 := by rw [sumX, sum_map_get]
  have hY : sumY w = ∑ i : Fin w.length, (w.get i).2 := by rw [sumY, sum_map_get]
  have hXX : sumXX w = ∑ i : Fin w.length, (w.get i).1 * (w.get i).1 := by
    rw [sumXX, sum_map_get]
  have hXY : sumXY w = ∑ i : Fin w.length, (w.get i).1 * (w.get i).2 := by
    rw [sumXY, sum_map_get]
  have hr1 : ∑ i : Fin w.length, ((w.get i).2 - (sStar * (w.get i).1 + cStar)) = 0 := by
    rw [Finset.sum_sub_distrib, Finset.sum_add_distrib, ← Finset.mul_sum, Finset.sum_const,
      Finset.card_univ, Fintype.card_fin, nsmul_eq_mul, ← hY, ← hX, hcStar]
    field_simp
  have hr2 : ∑ i : Fin w.length,
      (w.get i).1 * ((w.get i).2 - (sStar * (w.get i).1 + cStar)) = 0 := by
    have h1 : ∀ i : Fin w.length,
        (w.get i).1 * ((w.get i).2 - (sStar * (w.get i).1 + cStar))
          = (w.get i).1 * (w.get i).2 - sStar * ((w.get i).1 * (w.get i).1)
            - cStar * (w.get i).1 := fun i => by ring
    rw [Finset.sum_congr rfl fun i _ => h1 i, Finset.sum_sub_distrib, Finset.sum_sub_distrib,
      ← Finset.mul_sum, ← Finset.mul_sum, ← hXY, ← hXX, ← hX, hcStar, hsStar]
    rw [fitNum, fitDen] at *
    field_simp
    ring
  refine ⟨cStar, ?_⟩
  intro s2 c2
  have hdecomp : sqError w s2 c2 = sqError w sStar cStar
      + ∑ i : Fin w.length, ((s2 - sStar) * (w.get i).1 + (c2 - cStar))^2 := by
    rw [hE, hE]
    have h1 : ∀ i : Fin w.length,
        ((w.get i).2 - (s2 * (w.get i).1 + c2))^2
          = ((w.get i).2 - (sStar * (w.get i).1 + cStar))^2
            - ((2 * (s2 - sStar)) * ((w.get i).1 * ((w.get i).2 - (sStar * (w.get i).1 + cStar)))
               + (2 * (c2 - cStar)) * ((w.get i).2 - (sStar * (w.get i).1 + cStar)))
            + ((s2 - sStar) * (w.get i).1 + (c2 - cStar))^2 := fun i => by ring
    rw [Finset.sum_congr rfl fun i _ => h1 i, Finset.sum_add_distrib, Finset.sum_sub_distrib,
      Finset.sum_add_distrib, ← Finset.mul_sum, ← Finset.mul_sum, hr1, hr2]
    ring
  rw [hdecomp]
  exact le_add_of_nonneg_right (Finset.sum_nonneg fun i _ => sq_nonneg _)

/-! Theorems for the claims, in claim order. -/

/-- Claim C1: for every sequence of insertions into a gauge cache of capacity
`memory`, the cache holds exactly `memory` rows at all times; each insertion
shifts the rows by one, discards the oldest row, and writes the new sample
(whose pressure may be NaN, i.e. `none`) into slot 0; and once at least
`memory` samples have been inserted, the oldest surviving sample is the
`(N - memory + 1)`-th inserted one (0-indexed: position `N - memory`). -/
theorem buffer_capacity_and_oldest (memory : ℕ) (hm : 0 < memory)
    (samples : List Sample) :
    (∀ k, (bufferAfter memory (samples.take k)).length = memory)
    ∧ (∀ k s, samples[k]? = some s →
        bufferAfter memory (samples.take (k + 1))
          = (s.1, s.2) :: (bufferAfter memory (samples.take k)).dropLast)
    ∧ (memory ≤ samples.length →
        (bufferAfter memory samples)[memory - 1]?
          = samples[samples.length - memory]?) := by
  refine ⟨?_, ?_, ?_⟩
  · intro k
    rw [bufferAfter_closed memory hm, List.length_take]
    simp only [List.length_append, List.length_reverse, length_initBuffer]
    omega
  · intro k s hk
    rw [List.take_succ, hk, Option.toList_some, bufferAfter_append]
  · intro hle
    rw [bufferAfter_closed memory hm]
    rw [List.getElem?_take_of_lt (by omega)]
    rw [List.getElem?_append_left (by rw [List.length_reverse]; omega)]
    rw [List.getElem?_reverse (by omega)]
    congr 1
    omega

/-- Witness for C1 at capacity 2 and three inserted samples, the second of
which has a NaN pressure: the cache length is 2 and the oldest surviving
sample is the second inserted one. -/
theorem buffer_capacity_and_oldest_witness :
    (bufferAfter 2 [((some 1 : QN), (some 10 : QN)), (some 2, none), (some 3, some 30)]).length = 2
    ∧ (bufferAfter 2 [((some 1 : QN), (some 10 : QN)), (some 2, none), (some 3, some 30)])[2 - 1]?
        = some (some 2, none) := by
  have h := buffer_capacity_and_oldest 2 (by norm_num)
    [((some 1 : QN), (some 10 : QN)), (some 2, none), (some 3, some 30)]
  refine ⟨?_, ?_⟩
  · have h1 := h.1 3
    simpa using h1
  · have h3 := h.2.2 (by norm_num)
    simpa using h3

/-- Claim C4: in emulate mode, when the most recent stored pressure of the
polled gauge is NaN, the smoothing step returns the raw reading unchanged. -/
theorem smooth_missing_returns_raw (s : TICState) (g : ℕ) (x : ℚ)
    (hmiss : firstPressure (s.data g) = none) :
    smooth (firstPressure (s.data g)) x = x := by
  rw [hmiss]
  rfl

/-- Witness for C4: a fresh all-NaN cache, raw reading 7. -/
theorem smooth_missing_returns_raw_witness :
    smooth (firstPressure ((initTIC 200).data 1)) 7 = 7 :=
  smooth_missing_returns_raw (initTIC 200) 1 7 rfl

/-- Claim C5: for any finite prior value `old`, any raw reading `x` and any
blend weight `w ≥ 0` (new:old = 1:w), the smoothed output lies between
`min x old` and `max x old`; the code's smoothing is the `w = 20` instance. -/
theorem smoothing_is_convex_blend (w x old : ℚ) (hw : 0 ≤ w) :
    min x old ≤ smoothW w old x ∧ smoothW w old x ≤ max x old
    ∧ smooth (some old) x = smoothW 20 old x := by
  have hw1 : (0:ℚ) < w + 1 := by linarith
  refine ⟨?_, ?_, ?_⟩
  · rw [smoothW, le_div_iff₀ hw1]
    rcases le_total x old with h | h
    · rw [min_eq_left h]; nlinarith
    · rw [min_eq_right h]; nlinarith
  · rw [smoothW, div_le_iff₀ hw1]
    rcases le_total x old with h | h
    · rw [max_eq_right h]; nlinarith
    · rw [max_eq_left h]; nlinarith
  · rw [smooth, smoothW]
    norm_num

/-- Witness for C5 at weight 20, raw 1, prior 3. -/
theorem smoothing_is_convex_blend_witness :
    min (1:ℚ) 3 ≤ smoothW 20 3 1 ∧ smoothW 20 3 1 ≤ max (1:ℚ) 3
    ∧ smooth (some 3) 1 = smoothW 20 3 1 :=
  smoothing_is_convex_blend 20 1 3 (by norm_num)

/-- Claim C8: storing a sample for gauge `g` (directly or through the
emulate-mode read, which also smooths) leaves the cache of any other gauge
`h` unchanged.  Trend estimation (`update_data`) reads only the figure's own
line data and takes no gauge cache as input at all. -/
theorem other_gauge_buffer_unchanged (s : TICState) (g h : ℕ) (t p : QN)
    (t2 r : ℚ) (hne : h ≠ g) :
    (storeTIC s g t p).data h = s.data h
    ∧ ((read_gauge_emulate s g t2 r).1).data h = s.data h := by
  constructor <;> simp [storeTIC, read_gauge_emulate, hne]

/-- Witness for C8: gauges 2 ≠ 1 on a fresh state. -/
theorem other_gauge_buffer_unchanged_witness :
    (storeTIC (initTIC 3) 1 none none).data 2 = (initTIC 3).data 2
    ∧ ((read_gauge_emulate (initTIC 3) 1 0 0).1).data 2 = (initTIC 3).data 2 :=
  other_gauge_buffer_unchanged (initTIC 3) 1 2 none none 0 0 (by norm_num)

/-- Claim C9: in emulate mode every pressure produced by `read_gauge` lies in
`[0, 1050)` — the raw reading is `1050*random()` with `random() ∈ [0,1)`, and
the 1:20 blend of two values of `[0, 1050)` stays inside — so the range
invariant on the caches (matching the fixed 0–1050 plot axis) holds initially
and is preserved by every poll cycle. -/
theorem emulated_pressure_in_plot_range :
    (∀ memory, BufferInRange (initTIC memory))
    ∧ (∀ (s : TICState) (g : ℕ) (t r : ℚ), BufferInRange s → 0 ≤ r → r < 1 →
        (axis_ylim.1 ≤ (read_gauge_emulate s g t r).2.2
          ∧ (read_gauge_emulate s g t r).2.2 < axis_ylim.2)
        ∧ BufferInRange (read_gauge_emulate s g t r).1) := by
  constructor
  · intro memory g e he q hq
    rw [initTIC] at he
    simp only [initBuffer, List.eq_of_mem_replicate he] at hq
    cases hq
  · intro s g t r hInv hr0 hr1
    have h21 : (0:ℚ) < 21 := by norm_num
    have hpress : 0 ≤ smooth (firstPressure (s.data g)) (1050 * r)
        ∧ smooth (firstPressure (s.data g)) (1050 * r) < 1050 := by
      cases hfp : firstPressure (s.data g) with
      | none =>
          rw [smooth]
          constructor
          · nlinarith
          · nlinarith
      | some o =>
          have ho : 0 ≤ o ∧ o < 1050 := by
            cases hdg : s.data g with
            | nil => rw [hdg] at hfp; cases hfp
            | cons e0 rest =>
                have he0 : e0 ∈ s.data g := by rw [hdg]; exact List.mem_cons_self e0 rest
                have hfp0 : e0.2 = some o := by rw [hdg] at hfp; exact hfp
                exact hInv g e0 he0 o hfp0
          rw [smooth]
          constructor
          · rw [le_div_iff₀ h21]
            nlinarith [ho.1]
          · rw [div_lt_iff₀ h21]
            nlinarith [ho.2]
    refine ⟨⟨hpress.1, hpress.2⟩, ?_⟩
    intro g2 e he q hq
    rw [read_gauge_emulate, storeTIC] at he
    simp only at he
    by_cases hg2 : g2 = g
    · rw [if_pos hg2, store_data] at he
      rcases List.mem_cons.mp he with he1 | he2
      · subst he1
        simp only at hq
        cases hq
        exact ⟨hpress.1, hpress.2⟩
      · exact hInv g e ((List.dropLast_sublist (s.data g)).subset he2) q hq
    · rw [if_neg hg2] at he
      exact hInv g2 e he q hq

/-- Witness for C9: one poll of gauge 1 with random draw 1/2 on a fresh
one-slot cache. -/
theorem emulated_pressure_in_plot_range_witness :
    (axis_ylim.1 ≤ (read_gauge_emulate (initTIC 1) 1 0 (1/2)).2.2
      ∧ (read_gauge_emulate (initTIC 1) 1 0 (1/2)).2.2 < axis_ylim.2)
    ∧ BufferInRange (read_gauge_emulate (initTIC 1) 1 0 (1/2)).1 :=
  emulated_pressure_in_plot_range.2 (initTIC 1) 1 0 (1/2)
    (emulated_pressure_in_plot_range.1 1) (by norm_num) (by norm_num)

/-- Claim C10: the offline plotting utility exits with only a message when no
filename argument is supplied (before opening any file or figure), and with
arguments it treats every argument after the program name as a filename. -/
theorem plot_cli_dispatch (argv : List String) :
    (argv.length ≤ 1 → plotMain argv = PlotMain.exitNoFilename)
    ∧ (1 < argv.length → plotMain argv = PlotMain.plotted (argv.drop 1)) := by
  constructor
  · intro h
    rw [plotMain, if_pos h]
  · intro h
    rw [plotMain, if_neg (by omega), plot_files]

/-- Claim C3: on a perfectly linear series — every point of the fitted window
lying on `y = a + b*x`, with at least two distinct timestamps in the window —
the trend estimate is exactly `some b` (exact in the rational model, so within
any floating-point tolerance); and concretely, feeding `(1,100)` and `(2,200)`
into a fresh capacity-200 monitor yields trend `some 100`. -/
theorem linear_series_slope_recovered :
    (∀ (ser : Series) (tt pressure a b : ℚ),
        (∀ p ∈ trendWindow ser tt pressure, p.2 = a + b * p.1) →
        (∃ p ∈ trendWindow ser tt pressure, ∃ q ∈ trendWindow ser tt pressure, p.1 ≠ q.1) →
        (update_data ser tt pressure).2 = some b)
    ∧ (runMonitor 1 200 0 [(1, 100), (2, 200)]).2.2 = some 100 := by
  constructor
  · intro ser tt pressure a b hlin hdist
    obtain ⟨p, hp, q, hq, hne⟩ := hdist
    show polyfit1Slope (trendWindow ser tt pressure) = some b
    exact polyfit1Slope_linear _ a b hlin p q hp hq hne
  · norm_num [runMonitor, insertAndUpdate, update_data, trendWindow, lastN, polyfit1Slope,
      hasDistinctX, sumY, sumX, sumXX, sumXY, fitNum, fitDen]

/-- Witness for C3: the window `[(1,100),(2,200)]` lies on `y = 100*x` and the
fitted trend is `some 100`. -/
theorem linear_series_slope_recovered_witness :
    (update_data ⟨[1], [100]⟩ 2 200).2 = some 100 := by
  have hw : trendWindow ⟨[1], [100]⟩ 2 200 = [(1, 100), (2, 200)] := by
    norm_num [trendWindow, lastN]
  apply linear_series_slope_recovered.1 ⟨[1], [100]⟩ 2 200 0 100
  · rw [hw]
    intro p hp
    rcases List.mem_cons.mp hp with h1 | h2
    · rw [h1]; norm_num
    · rw [List.mem_singleton.mp h2]; norm_num
  · rw [hw]
    exact ⟨(1, 100), by simp, (2, 200), by simp, by norm_num⟩

/-- Claim C6: whenever the fitted window has two distinct timestamps, the
trend returned by `update_data` is the slope of the least-squares degree-1
polynomial over the last 10 samples; and for a gauge whose cache has received
at least 10 samples, the newest 10 cache rows are exactly the last 10 inserted
samples (newest-first), so that window is the last 10 stored samples of the
gauge's buffer. -/
theorem trend_is_least_squares_slope :
    (∀ (ser : Series) (tt pressure : ℚ),
        (∃ p ∈ trendWindow ser tt pressure, ∃ q ∈ trendWindow ser tt pressure, p.1 ≠ q.1) →
        ∃ g, (update_data ser tt pressure).2 = some g
          ∧ IsLeastSquaresSlope (trendWindow ser tt pressure) g)
    ∧ (∀ (memory : ℕ) (pts : List (ℚ × ℚ)), 0 < memory → 10 ≤ memory →
        10 ≤ pts.length →
        ((bufferAfter memory (pts.map fun p => ((some p.1 : QN), (some p.2 : QN)))).take 10).reverse
          = (lastN 10 pts).map fun p => ((some p.1 : QN), (some p.2 : QN))) := by
  constructor
  · intro ser tt pressure hdist
    obtain ⟨p, hp, q, hq, hne⟩ := hdist
    refine ⟨fitNum (trendWindow ser tt pressure) / fitDen (trendWindow ser tt pressure),
      ?_, polyfit1Slope_least_squares _ p q hp hq hne⟩
    show polyfit1Slope (trendWindow ser tt pressure) = _
    exact polyfit1Slope_eq_of_distinct _ ((hasDistinctX_iff _).mpr ⟨p, hp, q, hq, hne⟩)
  · intro memory pts hmem h10mem h10len
    rw [bufferAfter_closed memory hmem, List.take_take, Nat.min_eq_left h10mem]
    rw [List.take_append_of_le_length (by simp; omega)]
    rw [List.take_reverse, List.reverse_reverse]
    rw [← List.map_drop, List.length_map, lastN]

/-- Witness for C6: with window `[(1,100),(2,200)]` the returned trend is a
least-squares slope, and a 10-sample cache of capacity 10 holds exactly those
10 samples newest-first. -/
theorem trend_is_least_squares_slope_witness :
    (∃ g, (update_data ⟨[1], [100]⟩ 2 200).2 = some g
      ∧ IsLeastSquaresSlope (trendWindow ⟨[1], [100]⟩ 2 200) g)
    ∧ ((bufferAfter 10 ([(1, 1), (2, 2), (3, 3), (4, 4), (5, 5), (6, 6), (7, 7), (8, 8),
          (9, 9), (10, 10)].map fun p => ((some p.1 : QN), (some p.2 : QN)))).take 10).reverse
        = (lastN 10 [(1, 1), (2, 2), (3, 3), (4, 4), (5, 5), (6, 6), (7, 7), (8, 8),
          (9, 9), (10, 10)]).map fun p => ((some p.1 : QN), (some p.2 : QN)) := by
  constructor
  · apply trend_is_least_squares_slope.1 ⟨[1], [100]⟩ 2 200
    have hw : trendWindow ⟨[1], [100]⟩ 2 200 = [(1, 100), (2, 200)] := by
      norm_num [trendWindow, lastN]
    rw [hw]
    exact ⟨(1, 100), by simp, (2, 200), by simp, by norm_num⟩
  · exact trend_is_least_squares_slope.2 10
      [(1, 1), (2, 2), (3, 3), (4, 4), (5, 5), (6, 6), (7, 7), (8, 8), (9, 9), (10, 10)]
      (by norm_num) (by norm_num) (by norm_num)

/-- Counterexample to claim C2: after a single inserted sample `(1, 100)` the
window holds fewer than 2 valid samples, yet the trend computation does not
report an explicit unavailable result — `np.polyfit` falls back to the
minimum-norm solution and the code obtains the numeric gradient 50. -/
theorem trend_single_sample_not_unavailable :
    (runMonitor 1 200 0 [(1, 100)]).2.2 = some 50
    ∧ (runMonitor 1 200 0 [(1, 100)]).2.2 ≠ none := by
  have h : (runMonitor 1 200 0 [(1, 100)]).2.2 = some 50 := by
    norm_num [runMonitor, insertAndUpdate, update_data, trendWindow, lastN, polyfit1Slope,
      hasDistinctX, sumY, sumX, sumXX, sumXY, fitNum, fitDen]
  refine ⟨h, ?_⟩
  rw [h]
  exact Option.some_ne_none 50

/-- Amended C2: with a single sample `(t, p)` (one valid value, `t ≠ 0`) the
code produces the numeric gradient `p / (2*t)` — the rank-deficient
minimum-norm fit — rather than an unavailable result; no error is signalled
and no explicit unavailability marker exists for the caller. -/
theorem trend_single_sample_formula (t p : ℚ) (ht : t ≠ 0) :
    (runMonitor 1 200 0 [(t, p)]).2.2 = some (p / (2 * t)) := by
  have hw : trendWindow ⟨[], []⟩ (t - 0) p = [(t - 0, p)] := by
    norm_num [trendWindow, lastN]
  show (update_data ⟨[], []⟩ (t - 0) p).2 = _
  show polyfit1Slope (trendWindow ⟨[], []⟩ (t - 0) p) = _
  rw [hw]
  rw [polyfit1Slope]
  rw [if_neg (by simp [hasDistinctX]), if_neg (by simpa using ht)]
  congr 1
  rw [sumY]
  simp

/-- Witness for the amended C2 at `(t, p) = (1, 100)`: gradient 50. -/
theorem trend_single_sample_formula_witness :
    (runMonitor 1 200 0 [(1, 100)]).2.2 = some (100 / (2 * 1)) :=
  trend_single_sample_formula 1 100 (by norm_num)

/-- Witness for C10: invocations with zero and with one filename argument. -/
theorem plot_cli_dispatch_witness :
    plotMain ["plot.py"] = PlotMain.exitNoFilename
    ∧ plotMain ["plot.py", "log.txt"] = PlotMain.plotted ["log.txt"] := by
  refine ⟨(plot_cli_dispatch ["plot.py"]).1 (by simp), ?_⟩
  have h := (plot_cli_dispatch ["plot.py", "log.txt"]).2 (by simp)
  simpa using h

end GaugeMonitor
